import Mathlib

/-!
Verification of the WatchItems policy store
(Source/santad/DataLayer/WatchItems.h).

The repository ships only the class interface; the bodies of
ReloadConfig, ParseConfig, BuildPolicyTree, SetCurrentConfig,
FindPolicyForPath and the prefix tree live in implementation files that
are not part of the source tree, so those operations are modelled from
the specification and marked as such in their doc comments.  The data
model (WatchItemPolicy, the store fields) follows the header directly.
-/

deriving instance DecidableEq for Except

/-- The policy record, embedding `struct WatchItemPolicy` from
WatchItems.h: a name, a path, three booleans (write_only, is_prefix and
audit_only, with C++ default arguments false / false / true) and four
allow-sets.  The C++ field `is_prefix` is rendered here as
`is_prefix_flag`; sets of strings are rendered as lists. -/
structure WatchItemPolicy where
  name : String
  path : String
  write_only : Bool := false
  is_prefix_flag : Bool := false
  audit_only : Bool := true
  allowed_binary_paths : List String := []
  allowed_certificates_sha256 : List String := []
  allowed_team_ids : List String := []
  allowed_cdhashes : List String := []
deriving DecidableEq, Repr

/-- Splits a character list at every slash character, accumulating the
current component in reverse. Auxiliary to `pathComponents`. -/
def splitSlash : List Char → List Char → List (List Char)
  | [], acc => [acc.reverse]
  | c :: rest, acc =>
    if c = '/' then acc.reverse :: splitSlash rest []
    else splitSlash rest (c :: acc)

/-- Modelled from the spec: paths are keyed in the prefix index "by
path-component sequence" (section 4.3); the component splitter itself is
part of the missing PrefixTree implementation.  Splits an absolute path
on slashes and drops empty components. -/
def pathComponents (s : String) : List String :=
  ((splitSlash s.data []).filter (fun l => !l.isEmpty)).map (fun l => ⟨l⟩)

/-- One entry of the prefix index: the path-component key and the shared
policy record it maps to.  Modelled from the spec: the index is a
"mapping from path segment sequences to a shared reference to a
PolicyRecord" (section 3). -/
structure IndexEntry where
  comps : List String
  policy : WatchItemPolicy
deriving DecidableEq, Repr

/-- The prefix index: entries in parse order.  Modelled from the spec:
one index instance is immutable after construction (section 3). -/
abbrev PrefixIndex : Type := List IndexEntry

/-- Modelled from the spec: a rule "applies to the rule's path and, if
marked prefix, to every path beginning with it" (glossary); an exact
rule matches only the identical component sequence. -/
def matchesPath (e : IndexEntry) (p : List String) : Bool :=
  if e.policy.is_prefix_flag then e.comps.isPrefixOf p else e.comps == p

/-- Rank used to compare two matching entries: longer matched paths win
(sections 4.3 and 8: "most specific wins"), and at equal length an
exact-path rule beats a prefix rule (section 8: an exact rule is
returned "regardless of any prefix rules also matching"). -/
def entryRank (e : IndexEntry) : Nat :=
  2 * e.comps.length + (if e.policy.is_prefix_flag then 0 else 1)

/-- Keeps the earlier candidate unless the later one is strictly
better ranked, so among equal-rank matches the earliest in parse order
wins (section 4.3).  Auxiliary to `treeLookup`. -/
def pickBetter (e : IndexEntry) : Option IndexEntry → Option IndexEntry
  | none => some e
  | some b => if entryRank e < entryRank b then some b else some e

/-- Modelled from the spec: the longest-matching lookup of the missing
PrefixTree implementation (sections 3 and 4.3), scanning the entries in
parse order and keeping the best-ranked match. -/
def treeLookup : PrefixIndex → List String → Option IndexEntry
  | [], _ => none
  | e :: rest, p =>
    if matchesPath e p then pickBetter e (treeLookup rest p)
    else treeLookup rest p

/-- A raw per-rule mapping as handed over by the external config loader.
Modelled from the spec: each rule mapping carries a required path, three
optional booleans and four optional allow-lists (section 4.2); absent
keys are `none`.  The rule's name comes with the mapping.  The C++
key `kWatchItemConfigKeyIsPrefix` is rendered as `is_prefix_flag`. -/
structure RawRule where
  name : String
  path : Option String
  write_only : Option Bool
  is_prefix_flag : Option Bool
  audit_only : Option Bool
  allowed_binary_paths : Option (List String)
  allowed_certificates_sha256 : Option (List String)
  allowed_team_ids : Option (List String)
  allowed_cdhashes : Option (List String)
deriving DecidableEq, Repr

/-- The raw configuration: an ordered list of rule mappings, supporting
structural equality.  Modelled from the spec: the generic configuration
mapping contains "an ordered list of per-rule mappings" (section 4.2)
and the store "only requires the ability to structurally compare two
loaded configurations" (section 6). -/
abbrev RawConfig : Type := List RawRule

/-- The error kinds of the parse/build pipeline, from spec section 7. -/
inductive ConfigError where
  | MalformedRule
  | DuplicateName
  | ConflictingPaths
deriving DecidableEq, Repr

/-- Modelled from the spec: parsing one rule mapping.  The path is
required (missing path is a malformed rule, section 4.2); empty name or
empty path fails construction of the record (section 4.1); optional
booleans default to write_only=false, is_prefix=false, audit_only=true
and the allow-lists default to empty (section 4.2). -/
def parseRule (r : RawRule) : Except ConfigError WatchItemPolicy :=
  match r.path with
  | none => .error .MalformedRule
  | some p =>
    if r.name = "" || p = "" then .error .MalformedRule
    else .ok
      { name := r.name
        path := p
        write_only := r.write_only.getD false
        is_prefix_flag := r.is_prefix_flag.getD false
        audit_only := r.audit_only.getD true
        allowed_binary_paths := r.allowed_binary_paths.getD []
        allowed_certificates_sha256 := r.allowed_certificates_sha256.getD []
        allowed_team_ids := r.allowed_team_ids.getD []
        allowed_cdhashes := r.allowed_cdhashes.getD [] }

/-- Parses each rule mapping in order, failing on the first bad rule.
Auxiliary to `parseConfig`. -/
def parseRules : List RawRule → Except ConfigError (List WatchItemPolicy)
  | [] => .ok []
  | r :: rest =>
    match parseRule r with
    | .error e => .error e
    | .ok p =>
      match parseRules rest with
      | .error e => .error e
      | .ok ps => .ok (p :: ps)

/-- True when two rules of the list share the same name. -/
def hasDupName : List WatchItemPolicy → Bool
  | [] => false
  | p :: rest => rest.any (fun q => p.name == q.name) || hasDupName rest

/-- Modelled from the spec: `WatchItems::ParseConfig` (declared in
WatchItems.h line 83, body not in the tree).  Turns the raw
configuration into the ordered policy list, preserving input order;
all-or-nothing: any malformed rule fails the whole attempt, and two
rules sharing a name fail with DuplicateName (section 4.2). -/
def parseConfig (c : RawConfig) : Except ConfigError (List WatchItemPolicy) :=
  match parseRules c with
  | .error e => .error e
  | .ok ps => if hasDupName ps then .error .DuplicateName else .ok ps

/-- The index entry a policy is inserted under: its path split into
components, alongside the shared record (spec section 4.3). -/
def toEntry (p : WatchItemPolicy) : IndexEntry :=
  ⟨pathComponents p.path, p⟩

/-- True when two exact (non-prefix) entries of the list target the
identical path. -/
def entriesConflict : List IndexEntry → Bool
  | [] => false
  | e :: rest =>
    rest.any (fun f =>
      !e.policy.is_prefix_flag && !f.policy.is_prefix_flag && e.comps == f.comps) ||
    entriesConflict rest

/-- Modelled from the spec: `WatchItems::BuildPolicyTree` (declared in
WatchItems.h lines 84-85, body not in the tree).  Inserts each record
into the index keyed by path-component sequence, builds the monitored
root-path set as the set of all path values, and fails with
ConflictingPaths if two exact rules target the identical path
(section 4.3). -/
def buildPolicyTree (ps : List WatchItemPolicy) :
    Except ConfigError (PrefixIndex × List String) :=
  let entries := ps.map toEntry
  if entriesConflict entries then .error .ConflictingPaths
  else .ok (entries, (ps.map (fun p => p.path)).dedup)

/-- The whole parse-then-build pipeline of a reload attempt. -/
def parseBuild (c : RawConfig) : Except ConfigError (PrefixIndex × List String) :=
  match parseConfig c with
  | .error e => .error e
  | .ok ps => buildPolicyTree ps

/-- The mutable fields of the store, following the private section of
`class WatchItems` in WatchItems.h: the current tree `watch_items_`, the
last-applied raw configuration `current_config_` (none before the first
successful reload), the monitored path set
`currently_monitored_paths_`, and the flag `periodic_task_started_`. -/
structure WatchItems where
  watch_items_ : PrefixIndex
  current_config_ : Option RawConfig
  currently_monitored_paths_ : List String
  periodic_task_started_ : Bool
deriving DecidableEq

/-- The store before any reload: empty index, no snapshot, no monitored
paths, periodic task not started. -/
def initialStore : WatchItems :=
  { watch_items_ := []
    current_config_ := none
    currently_monitored_paths_ := []
    periodic_task_started_ := false }

/-- Modelled from the spec: `WatchItems::SetCurrentConfig` (declared in
WatchItems.h lines 81-82, body not in the tree).  Under the exclusive
lock, replaces index, monitored-path set and last-applied snapshot as
one atomic unit (sections 4.4 and 5); the periodic-task flag is
untouched. -/
def setCurrentConfig (s : WatchItems) (tree : PrefixIndex)
    (paths : List String) (c : RawConfig) : WatchItems :=
  { s with
    watch_items_ := tree
    currently_monitored_paths_ := paths
    current_config_ := some c }

/-- Outcome of one reload attempt: skipped as a no-op, applied, or
failed with a config error.  The noop / applied distinction is the
observable rebuild counter of spec section 8. -/
inductive ReloadOutcome where
  | noop
  | applied
  | failed (e : ConfigError)
deriving DecidableEq, Repr

/-- Modelled from the spec: `WatchItems::ReloadConfig` (declared in
WatchItems.h line 80, body not in the tree).  (a) if the new raw
configuration is structurally equal to the last-applied snapshot,
return immediately without running parser or builder; (b) otherwise
parse then build; (c) on success swap the three fields atomically; (d)
on failure leave all current state untouched (section 4.4). -/
def reloadConfig (s : WatchItems) (c : RawConfig) : WatchItems × ReloadOutcome :=
  if s.current_config_ = some c then (s, .noop)
  else
    match parseBuild c with
    | .ok (tree, paths) => (setCurrentConfig s tree paths c, .applied)
    | .error e => (s, .failed e)

/-- `WatchItems::FindPolicyForPath` (declared in WatchItems.h line 75,
body not in the tree).  Modelled from the spec: takes a snapshot of the
current index under a brief shared lock, performs the longest-prefix
lookup on it and returns a shared reference to the matching record or
none (section 4.4); returned alongside the store state it leaves
behind, which is the unchanged input state. -/
def findPolicyForPath (s : WatchItems) (input : String) :
    Option WatchItemPolicy × WatchItems :=
  ((treeLookup s.watch_items_ (pathComponents input)).map (fun e => e.policy), s)

/-- Lifecycle of the periodic reload task, from spec sections 3 and
4.4: not-started / running / stopped. -/
inductive TaskState where
  | notStarted
  | running
  | stopped
deriving DecidableEq, Repr

/-- The operations that act on the task lifecycle: a call to
`WatchItems::BeginPeriodicTask` (WatchItems.h line 73) and the store's
destruction (`~WatchItems`, line 71). -/
inductive TaskOp where
  | beginTask
  | destroy
deriving DecidableEq, Repr

/-- Modelled from the spec: the periodic-task state machine
(sections 3, 4.4 and 5).  `BeginPeriodicTask` moves not-started to
running exactly once and schedules the first reload immediately (the
Bool result: a reload is scheduled now); calling it again while running
is a no-op; destruction cancels the task.  No transition leads back to
not-started. -/
def taskStep : TaskState → TaskOp → TaskState × Bool
  | .notStarted, .beginTask => (.running, true)
  | s, .beginTask => (s, false)
  | _, .destroy => (.stopped, false)

/-- Runs a sequence of lifecycle operations from a state. -/
def taskRun (s : TaskState) (ops : List TaskOp) : TaskState :=
  ops.foldl (fun t op => (taskStep t op).1) s

/-- The periodic task fires only while running (after destruction it is
cancelled and never fires, spec section 5). -/
def taskCanFire (s : TaskState) : Bool :=
  s == .running

/-- A lookup yields no entry exactly when no entry of the index matches
the queried components. -/
theorem treeLookup_none_iff (idx : PrefixIndex) (p : List String) :
    treeLookup idx p = none ↔ ∀ e ∈ idx, matchesPath e p = false := by
  induction idx with
  | nil => simp [treeLookup]
  | cons e rest ih =>
    constructor
    · intro h f hf
      simp only [treeLookup] at h
      by_cases hm : matchesPath e p = true
      · rw [if_pos hm] at h
        cases hr : treeLookup rest p with
        | none => rw [hr] at h; simp [pickBetter] at h
        | some b =>
          rw [hr] at h
          simp only [pickBetter] at h
          by_cases hc : entryRank e < entryRank b
          · rw [if_pos hc] at h; simp at h
          · rw [if_neg hc] at h; simp at h
      · rw [if_neg hm] at h
        rcases List.mem_cons.mp hf with rfl | hf2
        · exact Bool.eq_false_iff.mpr hm
        · exact (ih.mp h) f hf2
    · intro h
      have he : matchesPath e p = false := h e (List.mem_cons_self _ _)
      simp only [treeLookup]
      rw [if_neg (by simp [he])]
      exact ih.mpr (fun f hf => h f (List.mem_cons_of_mem _ hf))

/-- A successful lookup returns an entry of the index that matches the
queried components and whose rank no other matching entry exceeds. -/
theorem treeLookup_spec (idx : PrefixIndex) (p : List String) (r : IndexEntry)
    (h : treeLookup idx p = some r) :
    r ∈ idx ∧ matchesPath r p = true ∧
      ∀ f ∈ idx, matchesPath f p = true → entryRank f ≤ entryRank r := by
  induction idx generalizing r with
  | nil => simp [treeLookup] at h
  | cons e rest ih =>
    simp only [treeLookup] at h
    by_cases hm : matchesPath e p = true
    · rw [if_pos hm] at h
      cases hr : treeLookup rest p with
      | none =>
        rw [hr] at h
        simp only [pickBetter] at h
        injection h with h
        subst h
        refine ⟨List.mem_cons_self _ _, hm, ?_⟩
        intro f hf hfm
        rcases List.mem_cons.mp hf with rfl | hf2
        · exact le_refl _
        · exact absurd hfm (by simp [(treeLookup_none_iff rest p).mp hr f hf2])
      | some b =>
        rw [hr] at h
        simp only [pickBetter] at h
        obtain ⟨hbmem, hbm, hbmax⟩ := ih b hr
        by_cases hc : entryRank e < entryRank b
        · rw [if_pos hc] at h
          injection h with h
          subst h
          refine ⟨List.mem_cons_of_mem _ hbmem, hbm, ?_⟩
          intro f hf hfm
          rcases List.mem_cons.mp hf with rfl | hf2
          · exact le_of_lt hc
          · exact hbmax f hf2 hfm
        · rw [if_neg hc] at h
          injection h with h
          subst h
          refine ⟨List.mem_cons_self _ _, hm, ?_⟩
          intro f hf hfm
          rcases List.mem_cons.mp hf with rfl | hf2
          · exact le_refl _
          · exact le_trans (hbmax f hf2 hfm) (not_lt.mp hc)
    · rw [if_neg hm] at h
      obtain ⟨hmem, hmm, hmax⟩ := ih r h
      refine ⟨List.mem_cons_of_mem _ hmem, hmm, ?_⟩
      intro f hf hfm
      rcases List.mem_cons.mp hf with rfl | hf2
      · exact absurd hfm (by simp [hm])
      · exact hmax f hf2 hfm

/-- A matching entry never has more components than the queried path. -/
theorem matchesPath_length_le (e : IndexEntry) (p : List String)
    (h : matchesPath e p = true) : e.comps.length ≤ p.length := by
  unfold matchesPath at h
  by_cases hf : e.policy.is_prefix_flag
  · rw [if_pos hf] at h
    exact (List.isPrefixOf_iff_prefix.mp h).length_le
  · rw [if_neg hf] at h
    rw [beq_iff_eq.mp h]

/-- Rank comparison implies component-length comparison. -/
theorem comps_length_le_of_rank_le (f e : IndexEntry)
    (h : entryRank f ≤ entryRank e) : f.comps.length ≤ e.comps.length := by
  unfold entryRank at h
  rcases Bool.dichotomy e.policy.is_prefix_flag with he | he <;>
    rcases Bool.dichotomy f.policy.is_prefix_flag with hf | hf <;>
      simp [he, hf] at h <;> omega

/-- An exact entry sitting exactly at the queried path has the greatest
possible rank among all entries matching that path, and an entry
reaching that rank is itself exact and sits at the queried path. -/
theorem rank_max_of_exact (e f : IndexEntry) (p : List String)
    (hex : e.policy.is_prefix_flag = false) (hcomp : e.comps = p)
    (hfm : matchesPath f p = true) :
    entryRank f ≤ entryRank e ∧
      (entryRank e ≤ entryRank f →
        f.policy.is_prefix_flag = false ∧ f.comps = p) := by
  have hlen : f.comps.length ≤ p.length := matchesPath_length_le f p hfm
  have hre : entryRank e = 2 * p.length + 1 := by
    unfold entryRank
    rw [hex, hcomp]
    simp
  constructor
  · rw [hre]
    unfold entryRank
    rcases Bool.dichotomy f.policy.is_prefix_flag with hf | hf <;> simp [hf] <;> omega
  · intro hge
    rcases Bool.dichotomy f.policy.is_prefix_flag with hf | hf
    · refine ⟨hf, ?_⟩
      have : f.comps.length = p.length := by
        unfold entryRank at hge
        rw [hex, hcomp, hf] at hge
        simp at hge
        omega
      unfold matchesPath at hfm
      rw [hf] at hfm
      simp at hfm
      exact hfm
    · exfalso
      unfold entryRank at hge
      rw [hex, hcomp, hf] at hge
      simp at hge
      omega

/-- Reload with the last-applied snapshot: the no-op branch. -/
theorem reloadConfig_of_eq (s : WatchItems) (c : RawConfig)
    (h : s.current_config_ = some c) :
    reloadConfig s c = (s, .noop) := by
  unfold reloadConfig
  rw [if_pos h]

/-- Reload of a fresh configuration whose parse/build succeeds: the
atomic swap branch. -/
theorem reloadConfig_of_ne_ok (s : WatchItems) (c : RawConfig)
    (tree : PrefixIndex) (paths : List String)
    (hne : ¬s.current_config_ = some c)
    (hb : parseBuild c = .ok (tree, paths)) :
    reloadConfig s c = (setCurrentConfig s tree paths c, .applied) := by
  unfold reloadConfig
  rw [if_neg hne, hb]

/-- Reload of a fresh configuration whose parse/build fails: the
fail-safe branch. -/
theorem reloadConfig_of_ne_err (s : WatchItems) (c : RawConfig)
    (e : ConfigError) (hne : ¬s.current_config_ = some c)
    (hb : parseBuild c = .error e) :
    reloadConfig s c = (s, .failed e) := by
  unfold reloadConfig
  rw [if_neg hne, hb]

/-- A reload attempt whose parse/build pipeline fails leaves the store
exactly as it was. -/
theorem reload_frame_of_error (s : WatchItems) (c : RawConfig)
    (e : ConfigError) (h : parseBuild c = .error e) :
    (reloadConfig s c).1 = s := by
  by_cases hc : s.current_config_ = some c
  · rw [reloadConfig_of_eq s c hc]
  · rw [reloadConfig_of_ne_err s c e hc h]

/-- Without an exact-path conflict, two exact entries of the index at
the same component sequence are one and the same entry. -/
theorem exact_unique_of_no_conflict (l : List IndexEntry)
    (hnc : entriesConflict l = false) :
    ∀ a ∈ l, ∀ b ∈ l, a.policy.is_prefix_flag = false →
      b.policy.is_prefix_flag = false → a.comps = b.comps → a = b := by
  induction l with
  | nil => intro a ha; simp at ha
  | cons e rest ih =>
    simp only [entriesConflict, Bool.or_eq_false_iff, List.any_eq_false] at hnc
    obtain ⟨hhead, htail⟩ := hnc
    intro a ha b hb haf hbf hab
    rcases List.mem_cons.mp ha with rfl | ha2 <;>
      rcases List.mem_cons.mp hb with rfl | hb2
    · rfl
    · exact absurd (by simp [haf, hbf, hab] :
        (!a.policy.is_prefix_flag && !b.policy.is_prefix_flag &&
          a.comps == b.comps) = true) (hhead b hb2)
    · exact absurd (by simp [hbf, haf, hab.symm] :
        (!b.policy.is_prefix_flag && !a.policy.is_prefix_flag &&
          b.comps == a.comps) = true) (hhead a ha2)
    · exact ih htail a ha2 b hb2 haf hbf hab


/-- Two distinct exact entries at the same component sequence are an
exact-path conflict. -/
theorem conflict_of_exact_pair (l : List IndexEntry) (a b : IndexEntry)
    (ha : a ∈ l) (hb : b ∈ l) (hne : a ≠ b)
    (haf : a.policy.is_prefix_flag = false)
    (hbf : b.policy.is_prefix_flag = false) (hab : a.comps = b.comps) :
    entriesConflict l = true := by
  by_cases h : entriesConflict l = true
  · exact h
  · exact absurd (exact_unique_of_no_conflict l (Bool.eq_false_iff.mpr h)
      a ha b hb haf hbf hab) hne

/-- Each rule mapping parsed in order: a success of `parseRules` relates
input and output pointwise. -/
theorem parseRules_ok_forall2 (c : List RawRule) (ps : List WatchItemPolicy)
    (h : parseRules c = .ok ps) :
    List.Forall₂ (fun r q => parseRule r = .ok q) c ps := by
  induction c generalizing ps with
  | nil =>
    simp only [parseRules] at h
    injection h with h
    subst h
    exact List.Forall₂.nil
  | cons r rest ih =>
    simp only [parseRules] at h
    cases hr : parseRule r with
    | error e => rw [hr] at h; exact absurd h (by simp)
    | ok q =>
      rw [hr] at h
      cases hrest : parseRules rest with
      | error e => rw [hrest] at h; exact absurd h (by simp)
      | ok qs =>
        rw [hrest] at h
        injection h with h
        subst h
        exact List.Forall₂.cons hr (ih qs hrest)

/-- A rule violating the basic record invariants fails `parseRule`. -/
theorem parseRule_error_of_bad (r : RawRule)
    (h : r.name = "" ∨ r.path = none ∨ r.path = some "") :
    parseRule r = .error .MalformedRule := by
  unfold parseRule
  rcases h with hn | hp | hp
  · cases hp : r.path with
    | none => rfl
    | some pa => simp [hn]
  · rw [hp]
  · rw [hp]
    simp

/-- If some rule of the list fails to parse, the whole list fails to
parse. -/
theorem parseRules_error_of_mem (c : List RawRule) (r : RawRule)
    (hr : r ∈ c) (e : ConfigError) (he : parseRule r = .error e) :
    ∃ f, parseRules c = .error f := by
  induction c with
  | nil => simp at hr
  | cons x rest ih =>
    rcases List.mem_cons.mp hr with rfl | hr2
    · exact ⟨e, by simp only [parseRules]; rw [he]⟩
    · cases hx : parseRule x with
      | error f => exact ⟨f, by simp only [parseRules]; rw [hx]⟩
      | ok q =>
        obtain ⟨f, hf⟩ := ih hr2
        exact ⟨f, by simp only [parseRules]; rw [hx, hf]⟩

/-- A failure of `parseRules` is a failure of `parseConfig`. -/
theorem parseConfig_error_of_rules (c : RawConfig) (e : ConfigError)
    (h : parseRules c = .error e) : parseConfig c = .error e := by
  unfold parseConfig
  rw [h]

/-- A duplicate name among successfully parsed rules fails
`parseConfig` with the duplicate-name error. -/
theorem parseConfig_error_of_dup (c : RawConfig) (ps : List WatchItemPolicy)
    (hps : parseRules c = .ok ps) (hdup : hasDupName ps = true) :
    parseConfig c = .error .DuplicateName := by
  simp [parseConfig, hps, hdup]

/-- A successful parse of one rule fixes every field of the record:
the name and path are taken from the mapping and every omitted optional
field takes its documented default. -/
theorem parseRule_ok_fields (r : RawRule) (q : WatchItemPolicy)
    (h : parseRule r = .ok q) :
    q.name = r.name ∧ r.path = some q.path ∧
      q.write_only = r.write_only.getD false ∧
      q.is_prefix_flag = r.is_prefix_flag.getD false ∧
      q.audit_only = r.audit_only.getD true ∧
      q.allowed_binary_paths = r.allowed_binary_paths.getD [] ∧
      q.allowed_certificates_sha256 = r.allowed_certificates_sha256.getD [] ∧
      q.allowed_team_ids = r.allowed_team_ids.getD [] ∧
      q.allowed_cdhashes = r.allowed_cdhashes.getD [] := by
  unfold parseRule at h
  split at h
  · exact absurd h (by simp)
  · rename_i pa hp
    split at h
    · exact absurd h (by simp)
    · injection h with h
      subst h
      exact ⟨rfl, hp, rfl, rfl, rfl, rfl, rfl, rfl, rfl⟩

/-- A successful build returns exactly the entries of the policies in
order, together with the set of their paths, and certifies the absence
of an exact-path conflict. -/
theorem buildPolicyTree_ok (ps : List WatchItemPolicy)
    (tree : PrefixIndex) (paths : List String)
    (h : buildPolicyTree ps = .ok (tree, paths)) :
    tree = ps.map toEntry ∧ paths = (ps.map (fun p => p.path)).dedup ∧
      entriesConflict (ps.map toEntry) = false := by
  unfold buildPolicyTree at h
  by_cases hc : entriesConflict (ps.map toEntry) = true
  · rw [if_pos hc] at h; exact absurd h (by simp)
  · rw [if_neg hc] at h
    injection h with h
    injection h with h1 h2
    exact ⟨h1.symm, h2.symm, Bool.eq_false_iff.mpr hc⟩

/-- A conflict among the entries fails the build. -/
theorem buildPolicyTree_err (ps : List WatchItemPolicy)
    (hc : entriesConflict (ps.map toEntry) = true) :
    buildPolicyTree ps = .error .ConflictingPaths := by
  unfold buildPolicyTree
  rw [if_pos hc]

/-- A sequence of reload attempts applied in order. -/
def reloadSeq (s : WatchItems) (cs : List RawConfig) : WatchItems :=
  cs.foldl (fun t c => (reloadConfig t c).1) s

/-- Any number of consecutive failing reload attempts leaves the store
exactly as it was. -/
theorem reloadSeq_frame_of_errors (cs : List RawConfig) (s : WatchItems)
    (h : ∀ c ∈ cs, ∃ e, parseBuild c = .error e) :
    reloadSeq s cs = s := by
  induction cs generalizing s with
  | nil => rfl
  | cons c rest ih =>
    obtain ⟨e, he⟩ := h c (List.mem_cons_self _ _)
    show reloadSeq (reloadConfig s c).1 rest = s
    rw [reload_frame_of_error s c e he]
    exact ih s (fun d hd => h d (List.mem_cons_of_mem _ hd))

/-- `WatchItems::BeginPeriodicTask` at the level of the store fields:
sets `periodic_task_started_`; modelled from the spec as idempotent
(section 4.4), it touches no other field. -/
def beginPeriodicTask (s : WatchItems) : WatchItems :=
  { s with periodic_task_started_ := true }

/-- The states the store can reach: the freshly constructed store,
followed by any interleaving of reload attempts, lookups and calls to
BeginPeriodicTask. -/
inductive Reachable : WatchItems → Prop where
  | init : Reachable initialStore
  | reload (s : WatchItems) (c : RawConfig) :
      Reachable s → Reachable (reloadConfig s c).1
  | find (s : WatchItems) (p : String) :
      Reachable s → Reachable (findPolicyForPath s p).2
  | beginTask (s : WatchItems) :
      Reachable s → Reachable (beginPeriodicTask s)

/-- The three guarded fields agree: either nothing was ever applied, or
index, monitored-path set and snapshot all come from one successful
parse/build of the stored snapshot. -/
def storeConsistent (s : WatchItems) : Prop :=
  (s.current_config_ = none ∧ s.watch_items_ = [] ∧
    s.currently_monitored_paths_ = []) ∨
  (∃ c, s.current_config_ = some c ∧
    parseBuild c = .ok (s.watch_items_, s.currently_monitored_paths_))

/-- Every reachable store state is consistent: the index, the
monitored-path set and the snapshot are always replaced together and
originate from the same successful reload. -/
theorem reachable_storeConsistent (s : WatchItems) (h : Reachable s) :
    storeConsistent s := by
  induction h with
  | init => exact Or.inl ⟨rfl, rfl, rfl⟩
  | reload s c _ ih =>
    by_cases hc : s.current_config_ = some c
    · rw [reloadConfig_of_eq s c hc]
      exact ih
    · cases hb : parseBuild c with
      | ok pr =>
        obtain ⟨tree, paths⟩ := pr
        rw [reloadConfig_of_ne_ok s c tree paths hc hb]
        exact Or.inr ⟨c, rfl, hb⟩
      | error e =>
        rw [reloadConfig_of_ne_err s c e hc hb]
        exact ih
  | find s p _ ih => exact ih
  | beginTask s _ ih =>
    rcases ih with ⟨h1, h2, h3⟩ | ⟨c, h1, h2⟩
    · exact Or.inl ⟨h1, h2, h3⟩
    · exact Or.inr ⟨c, h1, h2⟩

/-- A successful `parseConfig` is a successful `parseRules` with no
duplicate name. -/
theorem parseConfig_ok_rules (c : RawConfig) (ps : List WatchItemPolicy)
    (h : parseConfig c = .ok ps) :
    parseRules c = .ok ps ∧ hasDupName ps = false := by
  unfold parseConfig at h
  split at h
  · exact absurd h (by simp)
  · rename_i qs hr
    split at h
    · exact absurd h (by simp)
    · rename_i hd
      injection h with h
      subst h
      exact ⟨hr, Bool.eq_false_iff.mpr hd⟩

/-- Without a duplicate name, two rules of the list sharing a name are
one and the same rule. -/
theorem name_unique_of_no_dup (ps : List WatchItemPolicy)
    (hnd : hasDupName ps = false) :
    ∀ a ∈ ps, ∀ b ∈ ps, a.name = b.name → a = b := by
  induction ps with
  | nil => intro a ha; simp at ha
  | cons q rest ih =>
    simp only [hasDupName, Bool.or_eq_false_iff, List.any_eq_false] at hnd
    obtain ⟨hhead, htail⟩ := hnd
    intro a ha b hb hab
    rcases List.mem_cons.mp ha with rfl | ha2 <;>
      rcases List.mem_cons.mp hb with rfl | hb2
    · rfl
    · exact absurd (by simp [hab] : (a.name == b.name) = true) (hhead b hb2)
    · exact absurd (by simp [hab] : (b.name == a.name) = true) (hhead a ha2)
    · exact ih htail a ha2 b hb2 hab

/-- Two distinct rules sharing a name witness a duplicate name. -/
theorem hasDupName_of_pair (ps : List WatchItemPolicy)
    (a b : WatchItemPolicy) (ha : a ∈ ps) (hb : b ∈ ps) (hne : a ≠ b)
    (hn : a.name = b.name) : hasDupName ps = true := by
  by_cases h : hasDupName ps = true
  · exact h
  · exact absurd (name_unique_of_no_dup ps (Bool.eq_false_iff.mpr h)
      a ha b hb hn) hne

/-- The pipeline succeeds when both stages succeed. -/
theorem parseBuild_ok_of (c : RawConfig) (ps : List WatchItemPolicy)
    (tree : PrefixIndex) (paths : List String)
    (hps : parseConfig c = .ok ps)
    (hb : buildPolicyTree ps = .ok (tree, paths)) :
    parseBuild c = .ok (tree, paths) := by
  unfold parseBuild
  rw [hps]
  exact hb

/-- The pipeline fails when the build stage fails after a successful
parse. -/
theorem parseBuild_err_of_build (c : RawConfig) (ps : List WatchItemPolicy)
    (e : ConfigError) (hps : parseConfig c = .ok ps)
    (hb : buildPolicyTree ps = .error e) : parseBuild c = .error e := by
  unfold parseBuild
  rw [hps]
  exact hb

/-- The pipeline fails when the parse stage fails. -/
theorem parseBuild_err_of_parse (c : RawConfig) (e : ConfigError)
    (hps : parseConfig c = .error e) : parseBuild c = .error e := by
  unfold parseBuild
  rw [hps]

/-- A rule mapping with every optional key absent. -/
def mkRawRule (n : String) (p : Option String) (ipf : Option Bool) : RawRule :=
  { name := n
    path := p
    write_only := none
    is_prefix_flag := ipf
    audit_only := none
    allowed_binary_paths := none
    allowed_certificates_sha256 := none
    allowed_team_ids := none
    allowed_cdhashes := none }

/-- The longest-match scenario of spec section 8: a prefix rule at /a/b
and a more specific prefix rule at /a/b/c. -/
def cfgLongest : RawConfig :=
  [mkRawRule "ab" (some "/a/b") (some true),
   mkRawRule "abc" (some "/a/b/c") (some true)]

/-- The record the /a/b rule of `cfgLongest` parses to. -/
def policyAB : WatchItemPolicy :=
  { name := "ab", path := "/a/b", is_prefix_flag := true }

/-- The record the /a/b/c rule of `cfgLongest` parses to. -/
def policyABC : WatchItemPolicy :=
  { name := "abc", path := "/a/b/c", is_prefix_flag := true }

/-- The conflicting-exact-rules scenario of spec section 8. -/
def cfgConflict : RawConfig :=
  [mkRawRule "exact" (some "/tmp/f") (some false),
   mkRawRule "exact2" (some "/tmp/f") (some false)]

/-- A malformed configuration: its rule mapping misses the required
path field. -/
def cfgMissingPath : RawConfig := [mkRawRule "nopath" none none]

/-- The store after successfully loading `cfgLongest`. -/
def goodStore : WatchItems := (reloadConfig initialStore cfgLongest).1

/-- C1: for every loaded configuration and queried path,
FindPolicyForPath returns a policy record whose rule path matches the
queried path and is longest among all matching rules, and returns none
exactly when no rule matches; in particular, with prefix rules at /a/b
and /a/b/c, looking up /a/b/c/d/e returns the /a/b/c rule. -/
theorem claim_C1_findPolicy_longest_match (s : WatchItems) (input : String) :
    ((findPolicyForPath s input).1 = none ↔
      ∀ e ∈ s.watch_items_, matchesPath e (pathComponents input) = false) ∧
    (∀ r, (findPolicyForPath s input).1 = some r →
      ∃ e, e ∈ s.watch_items_ ∧ e.policy = r ∧
        matchesPath e (pathComponents input) = true ∧
        ∀ f ∈ s.watch_items_, matchesPath f (pathComponents input) = true →
          f.comps.length ≤ e.comps.length) ∧
    (findPolicyForPath (reloadConfig initialStore cfgLongest).1
      "/a/b/c/d/e").1 = some policyABC := by
  refine ⟨?_, ?_, by decide⟩
  · cases ht : treeLookup s.watch_items_ (pathComponents input) with
    | none =>
      constructor
      · intro _
        exact (treeLookup_none_iff _ _).mp ht
      · intro _
        show Option.map _ (treeLookup s.watch_items_ (pathComponents input)) = none
        rw [ht]
        rfl
    | some e =>
      constructor
      · intro h
        have hmap : Option.map (fun e => e.policy)
            (treeLookup s.watch_items_ (pathComponents input)) = none := h
        rw [ht] at hmap
        exact absurd hmap (by simp)
      · intro h
        exact absurd ht (by simp [(treeLookup_none_iff _ _).mpr h])
  · intro r h
    cases ht : treeLookup s.watch_items_ (pathComponents input) with
    | none =>
      have : Option.map (fun e => e.policy)
          (treeLookup s.watch_items_ (pathComponents input)) = some r := h
      rw [ht] at this
      exact absurd this (by simp)
    | some e =>
      have hpol : Option.map (fun e => e.policy)
          (treeLookup s.watch_items_ (pathComponents input)) = some r := h
      rw [ht] at hpol
      simp only [Option.map_some'] at hpol
      injection hpol with hpol
      obtain ⟨hmem, hm, hmax⟩ := treeLookup_spec _ _ _ ht
      exact ⟨e, hmem, hpol, hm, fun f hf hfm =>
        comps_length_le_of_rank_le f e (hmax f hf hfm)⟩

/-- C1 witness: the theorem applied to the loaded longest-match
scenario store and the path /a/b/c/d/e. -/
theorem claim_C1_findPolicy_longest_match_witness :
    ∃ e, e ∈ goodStore.watch_items_ ∧ e.policy = policyABC ∧
      matchesPath e (pathComponents "/a/b/c/d/e") = true ∧
      ∀ f ∈ goodStore.watch_items_,
        matchesPath f (pathComponents "/a/b/c/d/e") = true →
          f.comps.length ≤ e.comps.length :=
  (claim_C1_findPolicy_longest_match goodStore "/a/b/c/d/e").2.1
    policyABC (by decide)

/-- C2: a reload attempt failing at parse or build time leaves the
store state unchanged, FindPolicyForPath returns exactly the same
results as before, and the store stays queryable with its last-known
index across any number of consecutive failed reload attempts. -/
theorem claim_C2_failed_reload_keeps_state (s : WatchItems)
    (cs : List RawConfig)
    (h : ∀ c ∈ cs, ∃ e, parseBuild c = .error e) :
    reloadSeq s cs = s ∧
      ∀ input, (findPolicyForPath (reloadSeq s cs) input).1 =
        (findPolicyForPath s input).1 := by
  have hf := reloadSeq_frame_of_errors cs s h
  exact ⟨hf, fun input => by rw [hf]⟩

/-- C2 witness: after loading the good configuration, two consecutive
failing reloads (missing path field, then conflicting exact rules)
leave every lookup answer unchanged. -/
theorem claim_C2_failed_reload_keeps_state_witness :
    (findPolicyForPath (reloadSeq goodStore [cfgMissingPath, cfgConflict])
      "/a/b/c/d/e").1 = (findPolicyForPath goodStore "/a/b/c/d/e").1 :=
  (claim_C2_failed_reload_keeps_state goodStore [cfgMissingPath, cfgConflict]
    (by
      intro c hc
      rcases List.mem_cons.mp hc with rfl | hc2
      · exact ⟨.MalformedRule, by decide⟩
      · rcases List.mem_cons.mp hc2 with rfl | hc3
        · exact ⟨.ConflictingPaths, by decide⟩
        · simp at hc3)).2 "/a/b/c/d/e"

/-- C3: in every reachable store state the current index, the
monitored-path set and the last-applied snapshot were replaced together:
either none was ever set, or all three come from one successful
parse/build of the stored snapshot. -/
theorem claim_C3_fields_swapped_atomically (s : WatchItems)
    (h : Reachable s) : storeConsistent s :=
  reachable_storeConsistent s h

/-- C3 witness: the theorem applied to the store reached by loading the
good configuration, then a failing reload, then a lookup. -/
theorem claim_C3_fields_swapped_atomically_witness :
    storeConsistent (findPolicyForPath
      (reloadConfig (reloadConfig initialStore cfgLongest).1 cfgConflict).1
      "/a/b").2 :=
  claim_C3_fields_swapped_atomically _
    (Reachable.find _ "/a/b"
      (Reachable.reload _ cfgConflict
        (Reachable.reload initialStore cfgLongest Reachable.init)))

/-- C4: reloading a raw configuration structurally equal to the
last-applied snapshot is a successful no-op: the parser and builder are
skipped (outcome noop) and the index, the monitored-path set and the
stored snapshot are all unchanged. -/
theorem claim_C4_reload_noop_on_equal_config (s : WatchItems)
    (c : RawConfig) (h : s.current_config_ = some c) :
    reloadConfig s c = (s, .noop) ∧
      (reloadConfig s c).1.watch_items_ = s.watch_items_ ∧
      (reloadConfig s c).1.currently_monitored_paths_ =
        s.currently_monitored_paths_ ∧
      (reloadConfig s c).1.current_config_ = s.current_config_ := by
  have he := reloadConfig_of_eq s c h
  exact ⟨he, by rw [he], by rw [he], by rw [he]⟩

/-- C4 witness: reloading the good store with the very configuration it
already holds is a no-op. -/
theorem claim_C4_reload_noop_on_equal_config_witness :
    reloadConfig goodStore cfgLongest = (goodStore, .noop) :=
  (claim_C4_reload_noop_on_equal_config goodStore cfgLongest (by decide)).1

/-- C5: if a path matches an exact (non-prefix) rule of a successfully
loaded configuration, FindPolicyForPath returns that rule, regardless
of any prefix rules that also match the path. -/
theorem claim_C5_exact_rule_wins (c : RawConfig) (s : WatchItems)
    (ps : List WatchItemPolicy) (tree : PrefixIndex) (paths : List String)
    (input : String) (R : WatchItemPolicy)
    (hps : parseConfig c = .ok ps)
    (hb : buildPolicyTree ps = .ok (tree, paths))
    (hR : R ∈ ps) (hexact : R.is_prefix_flag = false)
    (hpath : pathComponents R.path = pathComponents input)
    (hne : ¬s.current_config_ = some c) :
    (findPolicyForPath (reloadConfig s c).1 input).1 = some R := by
  obtain ⟨htree, -, hnc⟩ := buildPolicyTree_ok ps tree paths hb
  have hpb := parseBuild_ok_of c ps tree paths hps hb
  rw [reloadConfig_of_ne_ok s c tree paths hne hpb]
  have hstate : (setCurrentConfig s tree paths c).watch_items_ = tree := rfl
  have he0mem : toEntry R ∈ tree := by
    rw [htree]
    exact List.mem_map_of_mem toEntry hR
  have he0match : matchesPath (toEntry R) (pathComponents input) = true := by
    unfold matchesPath toEntry
    simp [hexact, hpath]
  cases ht : treeLookup tree (pathComponents input) with
  | none =>
    exact absurd ((treeLookup_none_iff tree (pathComponents input)).mp ht
      (toEntry R) he0mem) (by simp [he0match])
  | some r =>
    obtain ⟨hrmem, hrm, hrmax⟩ := treeLookup_spec tree (pathComponents input) r ht
    have hle : entryRank (toEntry R) ≤ entryRank r :=
      hrmax (toEntry R) he0mem he0match
    have hcompsR : (toEntry R).comps = pathComponents input := hpath
    have hflagR : (toEntry R).policy.is_prefix_flag = false := hexact
    obtain ⟨hge, hchar⟩ := rank_max_of_exact (toEntry R) r
      (pathComponents input) hflagR hcompsR hrm
    obtain ⟨hrflag, hrcomps⟩ := hchar hle
    have heq : r = toEntry R := by
      rw [htree] at hrmem
      exact exact_unique_of_no_conflict (ps.map toEntry) hnc r hrmem
        (toEntry R) (by rw [← htree]; exact he0mem) hrflag hflagR
        (by rw [hrcomps, hcompsR])
    show Option.map (fun e => e.policy) (treeLookup tree (pathComponents input))
      = some R
    rw [ht, heq]
    rfl

/-- C5 witness: an exact rule at /a/b/c wins over the prefix rules of
the good configuration extended with it. -/
theorem claim_C5_exact_rule_wins_witness :
    (findPolicyForPath (reloadConfig initialStore
      (cfgLongest ++ [mkRawRule "ex" (some "/a/b/c") (some false)])).1
      "/a/b/c").1 =
      some { name := "ex", path := "/a/b/c", is_prefix_flag := false } :=
  claim_C5_exact_rule_wins
    (cfgLongest ++ [mkRawRule "ex" (some "/a/b/c") (some false)])
    initialStore
    [policyAB, policyABC, { name := "ex", path := "/a/b/c", is_prefix_flag := false }]
    ([policyAB, policyABC,
      { name := "ex", path := "/a/b/c", is_prefix_flag := false }].map toEntry)
    (([policyAB, policyABC,
      { name := "ex", path := "/a/b/c", is_prefix_flag := false }].map
        (fun p => p.path)).dedup)
    "/a/b/c" { name := "ex", path := "/a/b/c", is_prefix_flag := false }
    (by decide) (by decide) (by decide) (by decide) (by decide) (by decide)

/-- C6: two distinct exact (non-prefix) rules targeting the identical
path make the build fail with the conflicting-paths error, abort the
whole reload, and leave the store's index unchanged. -/
theorem claim_C6_conflicting_exact_rules (c : RawConfig)
    (ps : List WatchItemPolicy) (R1 R2 : WatchItemPolicy) (s : WatchItems)
    (hps : parseConfig c = .ok ps)
    (h1 : R1 ∈ ps) (h2 : R2 ∈ ps) (hne : R1 ≠ R2)
    (hx1 : R1.is_prefix_flag = false) (hx2 : R2.is_prefix_flag = false)
    (hpath : R1.path = R2.path) :
    buildPolicyTree ps = .error .ConflictingPaths ∧
      parseBuild c = .error .ConflictingPaths ∧
      (reloadConfig s c).1 = s ∧
      (¬s.current_config_ = some c →
        (reloadConfig s c).2 = .failed .ConflictingPaths) := by
  have hc : entriesConflict (ps.map toEntry) = true :=
    conflict_of_exact_pair (ps.map toEntry) (toEntry R1) (toEntry R2)
      (List.mem_map_of_mem toEntry h1) (List.mem_map_of_mem toEntry h2)
      (fun h => hne (congrArg IndexEntry.policy h))
      hx1 hx2 (by unfold toEntry; simp [hpath])
  have hbuild := buildPolicyTree_err ps hc
  have hpb := parseBuild_err_of_build c ps .ConflictingPaths hps hbuild
  refine ⟨hbuild, hpb, reload_frame_of_error s c .ConflictingPaths hpb, ?_⟩
  intro hnes
  rw [reloadConfig_of_ne_err s c .ConflictingPaths hnes hpb]

/-- C6 witness: the spec scenario with rules named exact and exact2,
both non-prefix at /tmp/f, applied to the freshly constructed store. -/
theorem claim_C6_conflicting_exact_rules_witness :
    buildPolicyTree
        [{ name := "exact", path := "/tmp/f", is_prefix_flag := false },
         { name := "exact2", path := "/tmp/f", is_prefix_flag := false }] =
      .error .ConflictingPaths ∧
    parseBuild cfgConflict = .error .ConflictingPaths ∧
    (reloadConfig initialStore cfgConflict).1 = initialStore ∧
    (¬initialStore.current_config_ = some cfgConflict →
      (reloadConfig initialStore cfgConflict).2 =
        .failed .ConflictingPaths) :=
  claim_C6_conflicting_exact_rules cfgConflict
    [{ name := "exact", path := "/tmp/f", is_prefix_flag := false },
     { name := "exact2", path := "/tmp/f", is_prefix_flag := false }]
    { name := "exact", path := "/tmp/f", is_prefix_flag := false }
    { name := "exact2", path := "/tmp/f", is_prefix_flag := false }
    initialStore
    (by decide) (by decide) (by decide) (by decide) (by decide) (by decide)
    (by decide)

/-- C7: a rule with an empty name or a missing or empty path is
rejected and fails the whole parse; two distinct rules sharing the same
name fail parsing with the duplicate-name error; and any such pipeline
failure leaves the store untouched, so no partial configuration is ever
applied. -/
theorem claim_C7_rule_validation_fails_batch :
    (∀ (c : RawConfig) (r : RawRule), r ∈ c →
      (r.name = "" ∨ r.path = none ∨ r.path = some "") →
      ∃ e, parseConfig c = .error e) ∧
    (∀ (c : RawConfig) (ps : List WatchItemPolicy)
        (q1 q2 : WatchItemPolicy), parseRules c = .ok ps →
      q1 ∈ ps → q2 ∈ ps → q1 ≠ q2 → q1.name = q2.name →
      parseConfig c = .error .DuplicateName) ∧
    (∀ (s : WatchItems) (c : RawConfig) (e : ConfigError),
      parseBuild c = .error e → (reloadConfig s c).1 = s) := by
  refine ⟨?_, ?_, ?_⟩
  · intro c r hr hbad
    obtain ⟨f, hf⟩ := parseRules_error_of_mem c r hr .MalformedRule
      (parseRule_error_of_bad r hbad)
    exact ⟨f, parseConfig_error_of_rules c f hf⟩
  · intro c ps q1 q2 hps hq1 hq2 hne hn
    exact parseConfig_error_of_dup c ps hps
      (hasDupName_of_pair ps q1 q2 hq1 hq2 hne hn)
  · intro s c e h
    exact reload_frame_of_error s c e h

/-- C7 witness: the missing-path configuration fails to parse. -/
theorem claim_C7_rule_validation_fails_batch_witness :
    ∃ e, parseConfig cfgMissingPath = .error e :=
  claim_C7_rule_validation_fails_batch.1 cfgMissingPath
    (mkRawRule "nopath" none none) (by decide) (by decide)

/-- C8: every successfully parsed configuration yields one record per
rule mapping in the same order, each parsed by the per-rule extractor;
and per rule, every omitted optional field takes its default:
write_only=false, is_prefix=false, audit_only=true, empty allow-sets. -/
theorem claim_C8_defaults_and_order :
    (∀ (c : RawConfig) (ps : List WatchItemPolicy),
      parseConfig c = .ok ps →
      ps.length = c.length ∧
      ∀ i (h1 : i < c.length) (h2 : i < ps.length),
        parseRule (c.get ⟨i, h1⟩) = .ok (ps.get ⟨i, h2⟩)) ∧
    (∀ (r : RawRule) (q : WatchItemPolicy), parseRule r = .ok q →
      (r.write_only = none → q.write_only = false) ∧
      (r.is_prefix_flag = none → q.is_prefix_flag = false) ∧
      (r.audit_only = none → q.audit_only = true) ∧
      (r.allowed_binary_paths = none → q.allowed_binary_paths = []) ∧
      (r.allowed_certificates_sha256 = none →
        q.allowed_certificates_sha256 = []) ∧
      (r.allowed_team_ids = none → q.allowed_team_ids = []) ∧
      (r.allowed_cdhashes = none → q.allowed_cdhashes = [])) := by
  constructor
  · intro c ps hps
    obtain ⟨hr, -⟩ := parseConfig_ok_rules c ps hps
    have hf := parseRules_ok_forall2 c ps hr
    exact ⟨hf.length_eq.symm, fun i h1 h2 => hf.get h1 h2⟩
  · intro r q hq
    obtain ⟨-, -, hwo, hip, hao, habp, hacs, hati, hach⟩ :=
      parseRule_ok_fields r q hq
    refine ⟨fun h => ?_, fun h => ?_, fun h => ?_, fun h => ?_,
      fun h => ?_, fun h => ?_, fun h => ?_⟩
    · rw [hwo, h]; rfl
    · rw [hip, h]; rfl
    · rw [hao, h]; rfl
    · rw [habp, h]; rfl
    · rw [hacs, h]; rfl
    · rw [hati, h]; rfl
    · rw [hach, h]; rfl

/-- C8 witness: the good configuration parses to its two records in
input order. -/
theorem claim_C8_defaults_and_order_witness :
    [policyAB, policyABC].length = cfgLongest.length :=
  (claim_C8_defaults_and_order.1 cfgLongest [policyAB, policyABC]
    (by decide)).1

/-- C9: the periodic task moves not-started to running on the first
BeginPeriodicTask, scheduling an immediate first reload; a second call
while running changes nothing; destruction moves any state to stopped;
no operation sequence ever returns a started task to not-started, and
the task never fires once stopped. -/
theorem claim_C9_periodic_task_state_machine :
    taskStep .notStarted .beginTask = (.running, true) ∧
    taskStep .running .beginTask = (.running, false) ∧
    (∀ s : TaskState, taskStep s .destroy = (.stopped, false)) ∧
    (∀ (s : TaskState) (ops : List TaskOp), ¬s = .notStarted →
      ¬taskRun s ops = .notStarted) ∧
    (∀ ops : List TaskOp, taskRun .stopped ops = .stopped) ∧
    (∀ ops : List TaskOp, taskCanFire (taskRun .stopped ops) = false) := by
  have hstep : ∀ (s : TaskState) (op : TaskOp), ¬s = .notStarted →
      ¬(taskStep s op).1 = .notStarted := by
    intro s op hs
    cases s <;> cases op <;> simp [taskStep] at hs ⊢
  have hrun : ∀ (ops : List TaskOp) (s : TaskState), ¬s = .notStarted →
      ¬taskRun s ops = .notStarted := by
    intro ops
    induction ops with
    | nil => intro s hs; exact hs
    | cons op rest ih =>
      intro s hs
      exact ih (taskStep s op).1 (hstep s op hs)
  have hstop : ∀ ops : List TaskOp, taskRun .stopped ops = .stopped := by
    intro ops
    induction ops with
    | nil => rfl
    | cons op rest ih => cases op <;> exact ih
  exact ⟨rfl, rfl, fun s => by cases s <;> rfl, fun s ops => hrun ops s,
    hstop, fun ops => by rw [hstop ops]; rfl⟩

/-- C9 witness: from the running state, beginning again and then
destroying never reaches not-started. -/
theorem claim_C9_periodic_task_state_machine_witness :
    ¬taskRun .running [.beginTask, .destroy] = .notStarted :=
  claim_C9_periodic_task_state_machine.2.2.2.1 .running
    [.beginTask, .destroy] (by decide)

/-- C10: FindPolicyForPath is a pure reader: it leaves every store
field unchanged, and a second call with the same path on the state it
leaves behind returns the same result. -/
theorem claim_C10_findPolicy_pure_reader (s : WatchItems) (input : String) :
    (findPolicyForPath s input).2 = s ∧
    (findPolicyForPath s input).2.watch_items_ = s.watch_items_ ∧
    (findPolicyForPath s input).2.current_config_ = s.current_config_ ∧
    (findPolicyForPath s input).2.currently_monitored_paths_ =
      s.currently_monitored_paths_ ∧
    (findPolicyForPath s input).2.periodic_task_started_ =
      s.periodic_task_started_ ∧
    (findPolicyForPath (findPolicyForPath s input).2 input).1 =
      (findPolicyForPath s input).1 :=
  ⟨rfl, rfl, rfl, rfl, rfl, rfl⟩
